import Mathlib

/-!
Shallow embedding of the LC-3 virtual machine core (register file, memory,
decoder, execution engine, trap dispatcher) together with one iteration of
the driving fetch/increment/dispatch loop.

Machine words are 16-bit unsigned integers; they are embedded as `Nat`
values kept below 2^16, with wrapping arithmetic written explicitly as
`% 65536`.  Console input is a list of pending bytes and console output a
list of emitted bytes; a blocking read from an empty input list embeds a
failed read of the input stream.
-/

namespace LC3

/-- The modulus 2^16 of all wrapping 16-bit word arithmetic. -/
def wordMod : Nat := 65536

/-- The ten register identifiers: eight general-purpose registers, the
program counter and the condition register (the `Register` enum). -/
inductive Register where
  | R0 | R1 | R2 | R3 | R4 | R5 | R6 | R7 | PC | COND
deriving DecidableEq, Repr

namespace condition_flags

/-- Positive flag, `FL_POS = 1 << 0`. -/
def FL_POS : Nat := 1
/-- Zero flag, `FL_ZRO = 1 << 1`. -/
def FL_ZRO : Nat := 2
/-- Negative flag, `FL_NEG = 1 << 2`. -/
def FL_NEG : Nat := 4

end condition_flags

/-- The register file: eight general registers, a separate PC slot and a
separate COND slot (struct `RegisterFile`). -/
structure RegisterFile where
  registers : Fin 8 → Nat
  pc : Nat
  cond : Nat

/-- Embeds `RegisterFile::new()`: all general registers, PC and COND start at 0. -/
def RegisterFile.new : RegisterFile :=
  { registers := fun _ => 0, pc := 0, cond := 0 }

/-- Embeds `RegisterFile::read`. -/
def RegisterFile.read (rf : RegisterFile) (r : Register) : Nat :=
  match r with
  | .R0 => rf.registers 0
  | .R1 => rf.registers 1
  | .R2 => rf.registers 2
  | .R3 => rf.registers 3
  | .R4 => rf.registers 4
  | .R5 => rf.registers 5
  | .R6 => rf.registers 6
  | .R7 => rf.registers 7
  | .PC => rf.pc
  | .COND => rf.cond

/-- Embeds `RegisterFile::write`. -/
def RegisterFile.write (rf : RegisterFile) (r : Register) (value : Nat) :
    RegisterFile :=
  match r with
  | .R0 => { rf with registers := Function.update rf.registers 0 value }
  | .R1 => { rf with registers := Function.update rf.registers 1 value }
  | .R2 => { rf with registers := Function.update rf.registers 2 value }
  | .R3 => { rf with registers := Function.update rf.registers 3 value }
  | .R4 => { rf with registers := Function.update rf.registers 4 value }
  | .R5 => { rf with registers := Function.update rf.registers 5 value }
  | .R6 => { rf with registers := Function.update rf.registers 6 value }
  | .R7 => { rf with registers := Function.update rf.registers 7 value }
  | .PC => { rf with pc := value }
  | .COND => { rf with cond := value }

/-- Embeds `RegisterFile::update_flags`: set COND from a result value. -/
def RegisterFile.update_flags (rf : RegisterFile) (value : Nat) :
    RegisterFile :=
  if value = 0 then
    { rf with cond := condition_flags.FL_ZRO }
  else if value >>> 15 = 1 then
    { rf with cond := condition_flags.FL_NEG }
  else
    { rf with cond := condition_flags.FL_POS }

/-- The flat store of 65,536 words (struct `Memory`); modelled as a total
map on `Nat`, read and written only at addresses below 65536. -/
structure Memory where
  data : Nat → Nat

/-- Embeds `Memory::new()`: zero-initialized. -/
def Memory.new : Memory := ⟨fun _ => 0⟩

/-- Embeds `Memory::read`. -/
def Memory.read (m : Memory) (address : Nat) : Nat := m.data address

/-- Embeds `Memory::write`. -/
def Memory.write (m : Memory) (address value : Nat) : Memory :=
  ⟨fun a => if a = address then value else m.data a⟩

/-- The closed 16-variant opcode enumeration (enum `Opcode`). -/
inductive Opcode where
  | OP_BR | OP_ADD | OP_LD | OP_ST | OP_JSR | OP_AND | OP_LDR | OP_STR
  | OP_RTI | OP_NOT | OP_LDI | OP_STI | OP_JMP | OP_RES | OP_LEA | OP_TRAP
deriving DecidableEq, Repr

/-- Embeds `Opcode::from_u16`. -/
def Opcode.from_u16 (value : Nat) : Option Opcode :=
  match value with
  | 0 => some .OP_BR
  | 1 => some .OP_ADD
  | 2 => some .OP_LD
  | 3 => some .OP_ST
  | 4 => some .OP_JSR
  | 5 => some .OP_AND
  | 6 => some .OP_LDR
  | 7 => some .OP_STR
  | 8 => some .OP_RTI
  | 9 => some .OP_NOT
  | 10 => some .OP_LDI
  | 11 => some .OP_STI
  | 12 => some .OP_JMP
  | 13 => some .OP_RES
  | 14 => some .OP_LEA
  | 15 => some .OP_TRAP
  | _ => none

/-- Embeds `extract_opcode`: decode the top 4 bits of an instruction word. -/
def extract_opcode (instruction : Nat) : Option Opcode :=
  Opcode.from_u16 (instruction >>> 12)

/-- Embeds `impl From<u16> for Register`: the register selected by a 3-bit field.
The source panics on values above 7; every call site masks its argument
with `0x7`, so that branch is unreachable and is embedded as `R0`. -/
def Register.fromU16 (value : Nat) : Register :=
  match value with
  | 0 => .R0
  | 1 => .R1
  | 2 => .R2
  | 3 => .R3
  | 4 => .R4
  | 5 => .R5
  | 6 => .R6
  | 7 => .R7
  | _ => .R0

/-- Embeds `sign_extend`: extend the low `bit_count` bits of `x` to a 16-bit
twos-complement word.  `0xFFFF << bit_count` is a 16-bit shift, hence
the reduction modulo 2^16. -/
def sign_extend (x : Nat) (bit_count : Nat) : Nat :=
  if (x >>> (bit_count - 1)) &&& 1 ≠ 0 then
    x ||| ((0xFFFF <<< bit_count) % wordMod)
  else
    x

/-- Console state: pending input bytes and emitted output bytes.  A byte
read from an empty input embeds a failed blocking read of the stream. -/
structure Console where
  input : List Nat
  output : List Nat

/-- Embeds `execute_add`: DR = SR1 + (SR2 or sign-extended imm5), wrapping;
update flags.  Always returns `Ok(())` in the source. -/
def execute_add (raw : Nat) (registers : RegisterFile) : RegisterFile :=
  let dr := (raw >>> 9) &&& 0x7
  let sr1 := (raw >>> 6) &&& 0x7
  let mode := (raw >>> 5) &&& 0x1
  let val1 := registers.read (Register.fromU16 sr1)
  let val2 :=
    if mode = 0 then
      let sr2 := raw &&& 0x7
      registers.read (Register.fromU16 sr2)
    else
      sign_extend (raw &&& 0x1F) 5
  let result := (val1 + val2) % wordMod
  let registers := registers.write (Register.fromU16 dr) result
  registers.update_flags result

/-- Embeds `execute_and`: DR = SR1 AND (SR2 or sign-extended imm5); update flags. -/
def execute_and (raw : Nat) (registers : RegisterFile) : RegisterFile :=
  let dr := (raw >>> 9) &&& 0x7
  let sr1 := (raw >>> 6) &&& 0x7
  let mode := (raw >>> 5) &&& 0x1
  let val1 := registers.read (Register.fromU16 sr1)
  let val2 :=
    if mode = 0 then
      let sr2 := raw &&& 0x7
      registers.read (Register.fromU16 sr2)
    else
      sign_extend (raw &&& 0x1F) 5
  let result := val1 &&& val2
  let registers := registers.write (Register.fromU16 dr) result
  registers.update_flags result

/-- Embeds `execute_not`: DR = bitwise complement of SR (`!val` on a `u16` is
XOR with `0xFFFF`); update flags. -/
def execute_not (raw : Nat) (registers : RegisterFile) : RegisterFile :=
  let dr := (raw >>> 9) &&& 0x7
  let sr := (raw >>> 6) &&& 0x7
  let val := registers.read (Register.fromU16 sr)
  let result := val ^^^ 0xFFFF
  let registers := registers.write (Register.fromU16 dr) result
  registers.update_flags result

/-- Embeds `execute_br`: branch on condition codes; PC += sign-extended
PCoffset9 when any requested flag is set in COND. -/
def execute_br (raw : Nat) (registers : RegisterFile) : RegisterFile :=
  let pc := registers.read .PC
  let cond := registers.read .COND
  let n := (raw >>> 11) &&& 0x1
  let z := (raw >>> 10) &&& 0x1
  let p := (raw >>> 9) &&& 0x1
  if (n = 1 ∧ cond &&& condition_flags.FL_NEG ≠ 0)
      ∨ (z = 1 ∧ cond &&& condition_flags.FL_ZRO ≠ 0)
      ∨ (p = 1 ∧ cond &&& condition_flags.FL_POS ≠ 0) then
    let pc_offset := sign_extend (raw &&& 0x1FF) 9
    registers.write .PC ((pc + pc_offset) % wordMod)
  else
    registers

/-- Embeds `execute_jmp`: PC = contents of BaseR. -/
def execute_jmp (raw : Nat) (registers : RegisterFile) : RegisterFile :=
  let base_r := (raw >>> 6) &&& 0x7
  let base := registers.read (Register.fromU16 base_r)
  registers.write .PC base

/-- Embeds `execute_jsr`: save the incremented PC into R7 first; then either
PC += sign-extended PCoffset11 (bit 11 set, JSR) or PC = contents of
BaseR read AFTER the write to R7 (bit 11 clear, JSRR). -/
def execute_jsr (raw : Nat) (registers : RegisterFile) : RegisterFile :=
  let pc := registers.read .PC
  let registers := registers.write .R7 pc
  if (raw >>> 11) &&& 0x1 = 1 then
    let pc_offset := sign_extend (raw &&& 0x7FF) 11
    registers.write .PC ((pc + pc_offset) % wordMod)
  else
    let base_r := (raw >>> 6) &&& 0x7
    let base := registers.read (Register.fromU16 base_r)
    registers.write .PC base

/-- Embeds `execute_ld`: DR = Memory[PC + sign-extended PCoffset9]; update flags. -/
def execute_ld (raw : Nat) (registers : RegisterFile) (memory : Memory) :
    RegisterFile :=
  let dr := (raw >>> 9) &&& 0x7
  let pc := registers.read .PC
  let pc_offset := sign_extend (raw &&& 0x1FF) 9
  let address := (pc + pc_offset) % wordMod
  let val := memory.read address
  let registers := registers.write (Register.fromU16 dr) val
  registers.update_flags val

/-- Embeds `execute_ldi`: DR = Memory[Memory[PC + sign-extended PCoffset9]];
update flags. -/
def execute_ldi (raw : Nat) (registers : RegisterFile) (memory : Memory) :
    RegisterFile :=
  let dr := (raw >>> 9) &&& 0x7
  let pc := registers.read .PC
  let pc_offset := sign_extend (raw &&& 0x1FF) 9
  let address := (pc + pc_offset) % wordMod
  let indirect_address := memory.read address
  let val := memory.read indirect_address
  let registers := registers.write (Register.fromU16 dr) val
  registers.update_flags val

/-- Embeds `execute_ldr`: DR = Memory[BaseR + sign-extended offset6];
update flags. -/
def execute_ldr (raw : Nat) (registers : RegisterFile) (memory : Memory) :
    RegisterFile :=
  let dr := (raw >>> 9) &&& 0x7
  let base_r := (raw >>> 6) &&& 0x7
  let offset := sign_extend (raw &&& 0x3F) 6
  let base := registers.read (Register.fromU16 base_r)
  let address := (base + offset) % wordMod
  let val := memory.read address
  let registers := registers.write (Register.fromU16 dr) val
  registers.update_flags val

/-- Embeds `execute_lea`: DR = PC + sign-extended PCoffset9 (the address value
itself); update flags. -/
def execute_lea (raw : Nat) (registers : RegisterFile) : RegisterFile :=
  let dr := (raw >>> 9) &&& 0x7
  let pc := registers.read .PC
  let pc_offset := sign_extend (raw &&& 0x1FF) 9
  let address := (pc + pc_offset) % wordMod
  let registers := registers.write (Register.fromU16 dr) address
  registers.update_flags address

/-- Embeds `execute_st`: Memory[PC + sign-extended PCoffset9] = SR. -/
def execute_st (raw : Nat) (registers : RegisterFile) (memory : Memory) :
    Memory :=
  let sr := (raw >>> 9) &&& 0x7
  let pc := registers.read .PC
  let pc_offset := sign_extend (raw &&& 0x1FF) 9
  let address := (pc + pc_offset) % wordMod
  let val := registers.read (Register.fromU16 sr)
  memory.write address val

/-- Embeds `execute_sti`: Memory[Memory[PC + sign-extended PCoffset9]] = SR. -/
def execute_sti (raw : Nat) (registers : RegisterFile) (memory : Memory) :
    Memory :=
  let sr := (raw >>> 9) &&& 0x7
  let pc := registers.read .PC
  let pc_offset := sign_extend (raw &&& 0x1FF) 9
  let address := (pc + pc_offset) % wordMod
  let indirect_address := memory.read address
  let val := registers.read (Register.fromU16 sr)
  memory.write indirect_address val

/-- Embeds `execute_str`: Memory[BaseR + sign-extended offset6] = SR. -/
def execute_str (raw : Nat) (registers : RegisterFile) (memory : Memory) :
    Memory :=
  let sr := (raw >>> 9) &&& 0x7
  let base_r := (raw >>> 6) &&& 0x7
  let offset := sign_extend (raw &&& 0x3F) 6
  let base := registers.read (Register.fromU16 base_r)
  let address := (base + offset) % wordMod
  let val := registers.read (Register.fromU16 sr)
  memory.write address val

/-- Embeds `trap_getc`: block-read one byte from the input stream and store it
zero-extended into R0; fail when the stream yields no byte. -/
def trap_getc (registers : RegisterFile) (cons : Console) :
    Except String Unit × RegisterFile × Console :=
  match cons.input with
  | b :: rest =>
      (Except.ok (), registers.write .R0 (b % 256),
        { cons with input := rest })
  | [] => (Except.error "Failed to read character", registers, cons)

/-- Embeds `trap_out`: write the low byte of R0 to the output stream. -/
def trap_out (registers : RegisterFile) (cons : Console) :
    Except String Unit × Console :=
  let c := registers.read .R0 &&& 0xFF
  (Except.ok (), { cons with output := cons.output ++ [c] })

/-- The scan loop of `trap_puts`, with the termination measure made
explicit: `fuel` counts the addresses left before the non-wrapping
16-bit increment `address += 1` overflows past `0xFFFF`.  Exhausted fuel
is that arithmetic overflow fault, embedded as the flag `false` (the
bytes already emitted are kept, as they were already printed). -/
def putsLoop (mem : Nat → Nat) (address : Nat) : Nat → List Nat × Bool
  | 0 => ([], false)
  | fuel + 1 =>
    let c := mem address &&& 0xFF
    if c = 0 then ([], true)
    else
      let rest := putsLoop mem (address + 1) fuel
      (c :: rest.1, rest.2)

/-- The scan loop of `trap_puts` started at `address`: a 16-bit address
can be incremented (without wrapping) `65536 - address` times before
overflowing past `0xFFFF`. -/
def putsScan (mem : Nat → Nat) (address : Nat) : List Nat × Bool :=
  putsLoop mem address (65536 - address)

/-- Embeds `trap_puts`: write the zero-terminated string of word-low-bytes
starting at the address in R0. -/
def trap_puts (registers : RegisterFile) (memory : Memory) (cons : Console) :
    Except String Unit × Console :=
  let address := registers.read .R0
  let scan := putsScan memory.data address
  (if scan.2 then Except.ok () else Except.error "address overflow",
    { cons with output := cons.output ++ scan.1 })

/-- Embeds `trap_in`: print a prompt, block-read one byte, echo it followed by a
newline, and store it zero-extended into R0; fail when the stream yields
no byte. -/
def trap_in (registers : RegisterFile) (cons : Console) :
    Except String Unit × RegisterFile × Console :=
  let prompt := "Enter a character: ".toList.map Char.toNat
  let cons := { cons with output := cons.output ++ prompt }
  match cons.input with
  | b :: rest =>
      (Except.ok (), registers.write .R0 (b % 256),
        { input := rest, output := cons.output ++ [b % 256, 10] })
  | [] => (Except.error "Failed to read character", registers, cons)

/-- The scan loop of `trap_putsp`, with the same explicit fuel as
`putsLoop`: per word, emit the low byte then the high byte; stop on a
zero low byte (emitting nothing from that word) or a zero high byte
(after emitting the low byte); exhausted fuel is the overflow fault of
the non-wrapping `address += 1` past `0xFFFF`. -/
def putspLoop (mem : Nat → Nat) (address : Nat) : Nat → List Nat × Bool
  | 0 => ([], false)
  | fuel + 1 =>
    let word := mem address
    let char1 := word &&& 0xFF
    if char1 = 0 then ([], true)
    else
      let char2 := (word >>> 8) &&& 0xFF
      if char2 ≠ 0 then
        let rest := putspLoop mem (address + 1) fuel
        (char1 :: char2 :: rest.1, rest.2)
      else ([char1], true)

/-- The scan loop of `trap_putsp` started at `address`. -/
def putspScan (mem : Nat → Nat) (address : Nat) : List Nat × Bool :=
  putspLoop mem address (65536 - address)

/-- Embeds `trap_putsp`: write the packed two-characters-per-word string starting
at the address in R0. -/
def trap_putsp (registers : RegisterFile) (memory : Memory)
    (cons : Console) : Except String Unit × Console :=
  let address := registers.read .R0
  let scan := putspScan memory.data address
  (if scan.2 then Except.ok () else Except.error "address overflow",
    { cons with output := cons.output ++ scan.1 })

/-- Embeds `trap_halt`: always the HALT signal, no state effect. -/
def trap_halt : Except String Unit := Except.error "HALT"

/-- A machine state: register file plus memory. -/
structure Machine where
  regs : RegisterFile
  mem : Memory

/-- The result of executing one instruction: the `Result` value returned
by `execute` together with the register/memory/console state as left by
the (in-place mutating) handlers. -/
structure Outcome where
  res : Except String Unit
  machine : Machine
  cons : Console

/-- Embeds `execute_trap`: dispatch on the low 8 bits of the instruction. -/
def execute_trap (raw : Nat) (m : Machine) (cons : Console) : Outcome :=
  let trapvect8 := raw &&& 0xFF
  match trapvect8 with
  | 0x20 =>
      let r := trap_getc m.regs cons
      ⟨r.1, { m with regs := r.2.1 }, r.2.2⟩
  | 0x21 =>
      let r := trap_out m.regs cons
      ⟨r.1, m, r.2⟩
  | 0x22 =>
      let r := trap_puts m.regs m.mem cons
      ⟨r.1, m, r.2⟩
  | 0x23 =>
      let r := trap_in m.regs cons
      ⟨r.1, { m with regs := r.2.1 }, r.2.2⟩
  | 0x24 =>
      let r := trap_putsp m.regs m.mem cons
      ⟨r.1, m, r.2⟩
  | 0x25 => ⟨trap_halt, m, cons⟩
  | _ => ⟨Except.error "Unknown TRAP vector", m, cons⟩

/-- Embeds `execute`: decode the instruction and dispatch to its handler; the
decode-failure branch returns the `Unknown opcode` error. -/
def execute (raw : Nat) (m : Machine) (cons : Console) : Outcome :=
  match extract_opcode raw with
  | none => ⟨Except.error "Unknown opcode", m, cons⟩
  | some opcode =>
    match opcode with
    | .OP_ADD => ⟨Except.ok (), { m with regs := execute_add raw m.regs }, cons⟩
    | .OP_AND => ⟨Except.ok (), { m with regs := execute_and raw m.regs }, cons⟩
    | .OP_NOT => ⟨Except.ok (), { m with regs := execute_not raw m.regs }, cons⟩
    | .OP_BR => ⟨Except.ok (), { m with regs := execute_br raw m.regs }, cons⟩
    | .OP_JMP => ⟨Except.ok (), { m with regs := execute_jmp raw m.regs }, cons⟩
    | .OP_JSR => ⟨Except.ok (), { m with regs := execute_jsr raw m.regs }, cons⟩
    | .OP_LD => ⟨Except.ok (), { m with regs := execute_ld raw m.regs m.mem }, cons⟩
    | .OP_LDI => ⟨Except.ok (), { m with regs := execute_ldi raw m.regs m.mem }, cons⟩
    | .OP_LDR => ⟨Except.ok (), { m with regs := execute_ldr raw m.regs m.mem }, cons⟩
    | .OP_LEA => ⟨Except.ok (), { m with regs := execute_lea raw m.regs }, cons⟩
    | .OP_ST => ⟨Except.ok (), { m with mem := execute_st raw m.regs m.mem }, cons⟩
    | .OP_STI => ⟨Except.ok (), { m with mem := execute_sti raw m.regs m.mem }, cons⟩
    | .OP_STR => ⟨Except.ok (), { m with mem := execute_str raw m.regs m.mem }, cons⟩
    | .OP_TRAP => execute_trap raw m cons
    | .OP_RES => ⟨Except.error "Reserved opcode", m, cons⟩
    | .OP_RTI => ⟨Except.error "RTI not implemented", m, cons⟩

/-- One iteration of the driving loop of `execute_program`: fetch the
word at PC, increment PC by 1 (wrapping) immediately, then decode and
dispatch; a decode failure is the `Invalid instruction` branch. -/
def loopStep (m : Machine) (cons : Console) : Outcome :=
  let pc := m.regs.read .PC
  let raw_instruction := m.mem.read pc
  let m := { m with regs := m.regs.write .PC ((pc + 1) % wordMod) }
  match extract_opcode raw_instruction with
  | some _ => execute raw_instruction m cons
  | none => ⟨Except.error "Invalid instruction", m, cons⟩

/-- The COND value that `update_flags` assigns for a result `value`:
Zero for 0, Negative when bit 15 is set, Positive otherwise. -/
def flagOf (value : Nat) : Nat :=
  if value = 0 then condition_flags.FL_ZRO
  else if value >>> 15 = 1 then condition_flags.FL_NEG
  else condition_flags.FL_POS

/-- Modelled from the spec: the signed value of an n-bit twos-complement
field `f` (the low n bits), for comparison with `sign_extend`. -/
def toSigned (n f : Nat) : Int :=
  if 2 ^ (n - 1) ≤ f then (f : Int) - 2 ^ n else (f : Int)

/-- Modelled from the spec: the stream of packed characters PUTSP reads,
per successive word the low byte first and then the high byte, over the
`fuel` words starting at `address`. -/
def byteStreamAux (mem : Nat → Nat) (address : Nat) : Nat → List Nat
  | 0 => []
  | fuel + 1 =>
    (mem address &&& 0xFF) :: ((mem address >>> 8) &&& 0xFF) ::
      byteStreamAux mem (address + 1) fuel

/-- Modelled from the spec: the packed-character stream of the words from
`address` up to the last address `0xFFFF`. -/
def byteStream (mem : Nat → Nat) (address : Nat) : List Nat :=
  byteStreamAux mem address (65536 - address)

/-- An empty console: no pending input, no output yet. -/
def consEmpty : Console := ⟨[], []⟩

/-- A machine with R7 = 0x1234 and PC = 0x3001 (the post-fetch-increment
PC), used to exercise JSRR with BaseR = R7. -/
def jsrrMachine : Machine :=
  ⟨(RegisterFile.new.write .R7 0x1234).write .PC 0x3001, Memory.new⟩

/-- A machine with R0 = 5, R1 = 10 and R4 = 0x4000, for exercising ADD,
stores and the flag-update discipline. -/
def sampleMachine : Machine :=
  ⟨((RegisterFile.new.write .R0 5).write .R1 10).write .R4 0x4000,
    Memory.new⟩

/-- A machine whose COND is Positive and whose memory holds a BRnzp
instruction with offset 1 at the PC 0x3000, for exercising one driving
loop iteration. -/
def brMachine : Machine :=
  ⟨(RegisterFile.new.write .PC 0x3000).write .COND condition_flags.FL_POS,
    Memory.new.write 0x3000 0x0E01⟩

theorem read_write (rf : RegisterFile) (r r' : Register) (v : Nat) :
    (rf.write r v).read r' = if r' = r then v else rf.read r' := by
  cases r <;> cases r' <;>
    simp [RegisterFile.read, RegisterFile.write, Function.update]

theorem write_cond (rf : RegisterFile) (r : Register) (v : Nat) :
    (rf.write r v).cond = if r = .COND then v else rf.cond := by
  cases r <;> simp [RegisterFile.write]

theorem update_flags_cond (rf : RegisterFile) (v : Nat) :
    (rf.update_flags v).cond = flagOf v := by
  unfold RegisterFile.update_flags flagOf
  split
  · rfl
  · split <;> rfl

theorem update_flags_registers (rf : RegisterFile) (v : Nat) :
    (rf.update_flags v).registers = rf.registers := by
  unfold RegisterFile.update_flags
  split
  · rfl
  · split <;> rfl

theorem update_flags_pc (rf : RegisterFile) (v : Nat) :
    (rf.update_flags v).pc = rf.pc := by
  unfold RegisterFile.update_flags
  split
  · rfl
  · split <;> rfl

theorem update_flags_read (rf : RegisterFile) (v : Nat) (r : Register)
    (h : r ≠ .COND) : (rf.update_flags v).read r = rf.read r := by
  unfold RegisterFile.update_flags
  split
  · cases r <;> simp [RegisterFile.read] at h ⊢
  · split <;> (cases r <;> simp [RegisterFile.read] at h ⊢)

theorem fromU16_and7_ne (x : Nat) :
    Register.fromU16 (x &&& 0x7) ≠ .COND
      ∧ Register.fromU16 (x &&& 0x7) ≠ .PC := by
  have h : x &&& 0x7 ≤ 7 := Nat.and_le_right
  revert h
  generalize x &&& 0x7 = k
  intro h
  interval_cases k <;> simp [Register.fromU16]

theorem update_flags_overwrite (rf : RegisterFile) (v c : Nat) :
    ({ rf with cond := c } : RegisterFile).update_flags v
      = rf.update_flags v := by
  unfold RegisterFile.update_flags
  split
  · rfl
  · split <;> rfl

theorem testBit15_iff (v : Nat) (h : v < 65536) :
    v >>> 15 = 1 ↔ Nat.testBit v 15 = true := by
  rw [Nat.testBit_to_div_mod, Nat.shiftRight_eq_div_pow]
  norm_num
  omega

/-- C7: executing raw instruction 0xF025 (TRAP with vector 0x25) always
produces the Halt termination signal and leaves every register, PC, COND,
memory cell and the console unchanged, in every state. -/
theorem halt_trap_is_pure_signal : ∀ (m : Machine) (cons : Console),
    execute 0xF025 m cons = ⟨Except.error "HALT", m, cons⟩ :=
  fun _ _ => rfl

/-- C4: for every 16-bit value and every register-file state,
`update_flags` leaves COND holding exactly one of the three flag values
{FL_POS, FL_ZRO, FL_NEG}, chosen by the zero test and bit 15 of the
value, fully overwriting the previous COND and touching nothing else. -/
theorem update_flags_flag_semantics : ∀ (rf : RegisterFile) (v : Nat),
    v < 65536 →
    ((rf.update_flags v).cond = condition_flags.FL_POS
      ∨ (rf.update_flags v).cond = condition_flags.FL_ZRO
      ∨ (rf.update_flags v).cond = condition_flags.FL_NEG)
    ∧ (v = 0 → (rf.update_flags v).cond = condition_flags.FL_ZRO)
    ∧ (v ≠ 0 → Nat.testBit v 15 = true →
        (rf.update_flags v).cond = condition_flags.FL_NEG)
    ∧ (v ≠ 0 → Nat.testBit v 15 = false →
        (rf.update_flags v).cond = condition_flags.FL_POS)
    ∧ (∀ c, ({ rf with cond := c } : RegisterFile).update_flags v
        = rf.update_flags v)
    ∧ (rf.update_flags v).registers = rf.registers
    ∧ (rf.update_flags v).pc = rf.pc := by
  intro rf v hv
  have hb := testBit15_iff v hv
  have hlt : v >>> 15 < 2 := by
    rw [Nat.shiftRight_eq_div_pow]
    omega
  refine ⟨?_, ?_, ?_, ?_, fun c => update_flags_overwrite rf v c,
    update_flags_registers rf v, update_flags_pc rf v⟩ <;>
    rw [update_flags_cond] <;> unfold flagOf
  · split
    · exact Or.inr (Or.inl rfl)
    · split
      · exact Or.inr (Or.inr rfl)
      · exact Or.inl rfl
  · intro h0
    simp [h0]
  · intro h0 hbit
    rw [if_neg h0, if_pos (hb.mpr hbit)]
  · intro h0 hbit
    rw [if_neg h0, if_neg]
    intro hc
    rw [hb.mp hc] at hbit
    cases hbit

/-- Witness for C4 at the concrete inputs 0, 0x8000 and 5. -/
theorem update_flags_flag_semantics_witness :
    (RegisterFile.new.update_flags 0).cond = condition_flags.FL_ZRO
    ∧ (RegisterFile.new.update_flags 0x8000).cond = condition_flags.FL_NEG
    ∧ (RegisterFile.new.update_flags 5).cond = condition_flags.FL_POS :=
  ⟨(update_flags_flag_semantics RegisterFile.new 0 (by decide)).2.1 rfl,
    (update_flags_flag_semantics RegisterFile.new 0x8000
      (by decide)).2.2.1 (by decide) (by decide),
    (update_flags_flag_semantics RegisterFile.new 5
      (by decide)).2.2.2.1 (by decide) (by decide)⟩

/-- C9: a freshly constructed register file has COND = 0, a value that
encodes none of the three flags; a BR instruction executed in that
initial state never branches and leaves the whole machine unchanged,
whatever its N/Z/P bits; and only a call to `update_flags` establishes
the one-flag-set invariant. -/
theorem fresh_registerfile_cond_zero :
    RegisterFile.new.cond = 0
    ∧ RegisterFile.new.cond &&& condition_flags.FL_NEG = 0
    ∧ RegisterFile.new.cond &&& condition_flags.FL_ZRO = 0
    ∧ RegisterFile.new.cond &&& condition_flags.FL_POS = 0
    ∧ (∀ raw (mem : Memory) (cons : Console), raw >>> 12 = 0 →
        execute raw ⟨RegisterFile.new, mem⟩ cons
          = ⟨Except.ok (), ⟨RegisterFile.new, mem⟩, cons⟩)
    ∧ (∀ (rf : RegisterFile) (v : Nat),
        (rf.update_flags v).cond = condition_flags.FL_POS
        ∨ (rf.update_flags v).cond = condition_flags.FL_ZRO
        ∨ (rf.update_flags v).cond = condition_flags.FL_NEG) := by
  refine ⟨rfl, rfl, rfl, rfl, ?_, ?_⟩
  · intro raw mem cons h
    simp [execute, extract_opcode, h, Opcode.from_u16, execute_br,
      RegisterFile.read, RegisterFile.new, condition_flags.FL_NEG,
      condition_flags.FL_ZRO, condition_flags.FL_POS]
  · intro rf v
    rw [update_flags_cond]
    unfold flagOf
    split
    · exact Or.inr (Or.inl rfl)
    · split
      · exact Or.inr (Or.inr rfl)
      · exact Or.inl rfl

/-- Witness for C9: the BRnzp instruction 0x0E05 does not branch in the
initial state. -/
theorem fresh_registerfile_cond_zero_witness :
    execute 0x0E05 ⟨RegisterFile.new, Memory.new⟩ consEmpty
      = ⟨Except.ok (), ⟨RegisterFile.new, Memory.new⟩, consEmpty⟩ := by
  obtain ⟨-, -, -, -, hbr, -⟩ := fresh_registerfile_cond_zero
  exact hbr 0x0E05 Memory.new consEmpty (by decide)

theorem two_pow_mul_or_eq_add (n : Nat) :
    ∀ q b : Nat, b < 2 ^ n → (2 ^ n * q) ||| b = 2 ^ n * q + b := by
  induction n with
  | zero =>
    intro q b hb
    interval_cases b
    simp
  | succ n ih =>
    intro q b hb
    have hpow : 2 ^ (n + 1) = 2 * 2 ^ n := by
      rw [Nat.pow_succ]
      ring
    have hmod : (2 ^ (n + 1) * q) % 2 = 0 := by
      rw [hpow, Nat.mul_assoc]
      omega
    have hor := @Nat.or_mod_two_eq_one (2 ^ (n + 1) * q) b
    have h1 : (2 ^ (n + 1) * q ||| b) % 2 = b % 2 := by
      rcases Nat.mod_two_eq_zero_or_one b with h | h
      · have hne : ¬ ((2 ^ (n + 1) * q ||| b) % 2 = 1) := by
          intro hc
          rcases hor.mp hc with h' | h' <;> omega
        omega
      · rw [h, hor.mpr (Or.inr h)]
    have hdiv : (2 ^ (n + 1) * q ||| b) / 2 = 2 ^ n * q ||| b / 2 := by
      rw [Nat.or_div_two]
      congr 1
      rw [hpow, Nat.mul_assoc]
      exact Nat.mul_div_cancel_left _ (by norm_num)
    have hb2 : b / 2 < 2 ^ n := by omega
    have hkey := ih q (b / 2) hb2
    have hsplit := Nat.div_add_mod (2 ^ (n + 1) * q ||| b) 2
    rw [hdiv, hkey, h1] at hsplit
    have hrel : 2 ^ (n + 1) * q = 2 * (2 ^ n * q) := by
      rw [hpow, Nat.mul_assoc]
    omega

theorem sign_extend_top_bit (n f : Nat) (h1 : 1 ≤ n) (hf : f < 2 ^ n) :
    ((f >>> (n - 1)) &&& 1 ≠ 0) ↔ 2 ^ (n - 1) ≤ f := by
  rw [Nat.shiftRight_eq_div_pow, Nat.and_one_is_mod]
  have hpow : 2 ^ n = 2 * 2 ^ (n - 1) := by
    have hn : n - 1 + 1 = n := by omega
    have hs : 2 ^ (n - 1 + 1) = 2 ^ (n - 1) * 2 := pow_succ 2 (n - 1)
    rw [hn] at hs
    omega
  have hdiv : f / 2 ^ (n - 1) < 2 :=
    Nat.div_lt_of_lt_mul (by omega)
  have hpos : 0 < 2 ^ (n - 1) := Nat.pos_pow_of_pos _ (by norm_num)
  rw [Nat.mod_eq_of_lt hdiv]
  constructor
  · intro h
    by_contra hc
    push_neg at hc
    exact h (Nat.div_eq_of_lt hc)
  · intro h
    have := Nat.div_pos h hpos
    omega

theorem sign_extend_eq_ite (n f : Nat) (h1 : 1 ≤ n) (h2 : n ≤ 16)
    (hf : f < 2 ^ n) :
    sign_extend f n = if 2 ^ (n - 1) ≤ f then f + (65536 - 2 ^ n) else f := by
  have hK : 2 ^ n ≤ 65536 := by
    calc 2 ^ n ≤ 2 ^ 16 := Nat.pow_le_pow_right (by norm_num) h2
    _ = 65536 := by norm_num
  have hK1 : 1 ≤ 2 ^ n := Nat.one_le_two_pow
  have hmask : (0xFFFF <<< n) % wordMod = 65536 - 2 ^ n := by
    rw [Nat.shiftLeft_eq]
    unfold wordMod
    have h65535 : (0xFFFF : Nat) = 65535 := by norm_num
    rw [h65535]
    generalize 2 ^ n = K at hK hK1 ⊢
    omega
  have hd : 2 ^ n ∣ 65536 - 2 ^ n := by
    have hd16 : 2 ^ n ∣ 65536 := by
      have h16 : (65536 : Nat) = 2 ^ 16 := by norm_num
      rw [h16]
      exact Nat.pow_dvd_pow 2 h2
    exact Nat.dvd_sub' hd16 dvd_rfl
  unfold sign_extend
  rw [hmask]
  by_cases hbit : 2 ^ (n - 1) ≤ f
  · rw [if_pos ((sign_extend_top_bit n f h1 hf).mpr hbit), if_pos hbit]
    obtain ⟨q, hq⟩ := hd
    rw [hq, Nat.or_comm, two_pow_mul_or_eq_add n q f hf]
    omega
  · rw [if_neg, if_neg hbit]
    intro hc
    exact hbit ((sign_extend_top_bit n f h1 hf).mp hc)

theorem sign_extend_spec (n f : Nat) (h1 : 1 ≤ n) (h2 : n ≤ 16)
    (hf : f < 2 ^ n) :
    sign_extend f n = ((toSigned n f) % 65536).toNat
    ∧ (2 ^ (n - 1) ≤ f → sign_extend f n = f + (65536 - 2 ^ n))
    ∧ (f < 2 ^ (n - 1) → sign_extend f n = f) := by
  have hite := sign_extend_eq_ite n f h1 h2 hf
  have hK : 2 ^ n ≤ 65536 := by
    calc 2 ^ n ≤ 2 ^ 16 := Nat.pow_le_pow_right (by norm_num) h2
    _ = 65536 := by norm_num
  have hpow : 2 ^ n = 2 * 2 ^ (n - 1) := by
    have hn : n - 1 + 1 = n := by omega
    have hs : 2 ^ (n - 1 + 1) = 2 ^ (n - 1) * 2 := pow_succ 2 (n - 1)
    rw [hn] at hs
    omega
  refine ⟨?_, ?_, ?_⟩
  · rw [hite]
    unfold toSigned
    by_cases hb : 2 ^ (n - 1) ≤ f
    · rw [if_pos hb, if_pos hb]
      have hc : ((2 : Int) ^ n) = ((2 ^ n : Nat) : Int) := by push_cast; ring
      rw [hc]
      omega
    · rw [if_neg hb, if_neg hb]
      omega
  · intro h
    rw [hite, if_pos h]
  · intro h
    rw [hite, if_neg (by omega)]

/-- C3: for each field width n in {5, 6, 9, 11} and any 16-bit word, the
sign extension of the masked low-n-bit field is the 16-bit
twos-complement representation of the signed value of the field: bits n..15
become all ones exactly when bit n-1 of the field is set, and the low n
bits are unchanged. -/
theorem sign_extend_correct : ∀ n, (n = 5 ∨ n = 6 ∨ n = 9 ∨ n = 11) →
    ∀ x, x < 65536 →
    sign_extend (x &&& (2 ^ n - 1)) n
        = ((toSigned n (x &&& (2 ^ n - 1))) % 65536).toNat
    ∧ (2 ^ (n - 1) ≤ x &&& (2 ^ n - 1) →
        sign_extend (x &&& (2 ^ n - 1)) n
          = (x &&& (2 ^ n - 1)) + (65536 - 2 ^ n))
    ∧ (x &&& (2 ^ n - 1) < 2 ^ (n - 1) →
        sign_extend (x &&& (2 ^ n - 1)) n = x &&& (2 ^ n - 1)) := by
  intro n hn x _
  have hle : x &&& (2 ^ n - 1) ≤ 2 ^ n - 1 := Nat.and_le_right
  have hlt : x &&& (2 ^ n - 1) < 2 ^ n :=
    lt_of_le_of_lt hle (Nat.sub_lt (Nat.pos_pow_of_pos n (by norm_num))
      (by norm_num))
  rcases hn with h | h | h | h <;> subst h <;>
    exact sign_extend_spec _ _ (by norm_num) (by norm_num) hlt

/-- Witness for C3 at n = 5 and x = 0x13 (a negative imm5 field). -/
theorem sign_extend_correct_witness :
    sign_extend (0x13 &&& (2 ^ 5 - 1)) 5
      = ((toSigned 5 (0x13 &&& (2 ^ 5 - 1))) % 65536).toNat :=
  (sign_extend_correct 5 (Or.inl rfl) 0x13 (by decide)).1

theorem execute_res_of_decode (raw : Nat) (m : Machine) (cons : Console)
    (op : Opcode) (h : extract_opcode raw = some op) :
    (execute raw m cons).res ≠ Except.error "Unknown opcode" := by
  unfold execute
  rw [h]
  cases op <;> try simp
  case OP_TRAP =>
    simp only [execute_trap]
    split <;>
      simp [trap_getc, trap_out, trap_puts, trap_in, trap_putsp, trap_halt]
    · cases cons.input <;> simp
    · split <;> simp
    · cases cons.input <;> simp
    · split <;> simp

/-- C6: decoding the top 4 bits is total over all 65,536 instruction
words, the 16 four-bit values map to pairwise distinct opcode variants,
and hence the decode-failure branches (the `Unknown opcode` error of the
execution engine and the `Invalid instruction` branch of the driving
loop) are unreachable. -/
theorem decode_total_and_injective :
    (∀ raw, raw < 65536 → ∃ op, extract_opcode raw = some op)
    ∧ (∀ a b, a < 16 → b < 16 → Opcode.from_u16 a = Opcode.from_u16 b →
        a = b)
    ∧ (∀ m : Machine, m.mem.read (m.regs.read .PC) < 65536 →
        extract_opcode (m.mem.read (m.regs.read .PC)) ≠ none)
    ∧ (∀ raw (m : Machine) (cons : Console), raw < 65536 →
        (execute raw m cons).res ≠ Except.error "Unknown opcode") := by
  have h1 : ∀ raw, raw < 65536 → ∃ op, extract_opcode raw = some op := by
    intro raw h
    have h16 : raw >>> 12 < 16 := by
      rw [Nat.shiftRight_eq_div_pow]
      omega
    unfold extract_opcode
    generalize raw >>> 12 = k at h16
    interval_cases k <;> exact ⟨_, rfl⟩
  refine ⟨h1, ?_, ?_, ?_⟩
  · intro a b ha hb h
    interval_cases a <;> interval_cases b <;> revert h <;> decide
  · intro m h
    obtain ⟨op, hop⟩ := h1 _ h
    rw [hop]
    simp
  · intro raw m cons h
    obtain ⟨op, hop⟩ := h1 _ h
    exact execute_res_of_decode raw m cons op hop

/-- Witness for C6 at the concrete instruction word 0x8123 (an RTI,
which decodes successfully and faults only in the engine). -/
theorem decode_total_and_injective_witness :
    (∃ op, extract_opcode 0x8123 = some op)
    ∧ (execute 0x8123 sampleMachine consEmpty).res
        ≠ Except.error "Unknown opcode" :=
  ⟨decode_total_and_injective.1 0x8123 (by decide),
    decode_total_and_injective.2.2.2 0x8123 sampleMachine consEmpty
      (by decide)⟩

/-- C5: one iteration of the driving loop increments PC (wrapping)
immediately after the fetch and before dispatch: the execution engine is
invoked on exactly the fetched word and the fetched machine with
PC = (fetch address + 1) mod 2^16; consequently a taken BR lands on
(fetch address + 1 + sign-extended offset9) mod 2^16. -/
theorem pc_incremented_before_dispatch : ∀ (m : Machine) (cons : Console),
    (∀ op, extract_opcode (m.mem.read (m.regs.read .PC)) = some op →
      loopStep m cons
        = execute (m.mem.read (m.regs.read .PC))
            { m with regs :=
                m.regs.write .PC ((m.regs.read .PC + 1) % wordMod) }
            cons)
    ∧ (m.mem.read (m.regs.read .PC) >>> 12 = 0 →
        (((m.mem.read (m.regs.read .PC) >>> 11) &&& 0x1 = 1
            ∧ m.regs.read .COND &&& condition_flags.FL_NEG ≠ 0)
          ∨ ((m.mem.read (m.regs.read .PC) >>> 10) &&& 0x1 = 1
            ∧ m.regs.read .COND &&& condition_flags.FL_ZRO ≠ 0)
          ∨ ((m.mem.read (m.regs.read .PC) >>> 9) &&& 0x1 = 1
            ∧ m.regs.read .COND &&& condition_flags.FL_POS ≠ 0)) →
        (loopStep m cons).machine.regs.read .PC
          = ((m.regs.read .PC + 1) % wordMod
              + sign_extend (m.mem.read (m.regs.read .PC) &&& 0x1FF) 9)
              % wordMod) := by
  intro m cons
  have h1 : ∀ op, extract_opcode (m.mem.read (m.regs.read .PC)) = some op →
      loopStep m cons
        = execute (m.mem.read (m.regs.read .PC))
            { m with regs :=
                m.regs.write .PC ((m.regs.read .PC + 1) % wordMod) }
            cons := by
    intro op hop
    simp only [loopStep]
    rw [hop]
  refine ⟨h1, ?_⟩
  intro h0 hcond
  have hop : extract_opcode (m.mem.read (m.regs.read .PC)) = some .OP_BR := by
    unfold extract_opcode
    rw [h0]
    rfl
  rw [h1 _ hop]
  simp only [execute, hop, execute_br]
  rw [if_pos]
  · simp [read_write]
  · simpa [read_write] using hcond

/-- Witness for C5: the driving loop iteration on `brMachine` takes the
branch to 0x3002 = (0x3000 + 1) + 1. -/
theorem pc_incremented_before_dispatch_witness :
    (loopStep brMachine consEmpty).machine.regs.read .PC
      = ((brMachine.regs.read .PC + 1) % wordMod
          + sign_extend
              (brMachine.mem.read (brMachine.regs.read .PC) &&& 0x1FF) 9)
          % wordMod :=
  (pc_incremented_before_dispatch brMachine consEmpty).2
    (by decide) (by decide)

theorem execute_br_cond (raw : Nat) (rf : RegisterFile) :
    (execute_br raw rf).cond = rf.cond := by
  simp only [execute_br]
  split <;> rfl

theorem execute_jmp_cond (raw : Nat) (rf : RegisterFile) :
    (execute_jmp raw rf).cond = rf.cond := rfl

theorem execute_jsr_cond (raw : Nat) (rf : RegisterFile) :
    (execute_jsr raw rf).cond = rf.cond := by
  simp only [execute_jsr]
  split <;> rfl

theorem trap_getc_cond (rf : RegisterFile) (cons : Console) :
    (trap_getc rf cons).2.1.cond = rf.cond := by
  rcases cons with ⟨inp, outp⟩
  cases inp <;> rfl

theorem trap_in_cond (rf : RegisterFile) (cons : Console) :
    (trap_in rf cons).2.1.cond = rf.cond := by
  rcases cons with ⟨inp, outp⟩
  cases inp <;> rfl

theorem execute_trap_cond (raw : Nat) (m : Machine) (cons : Console) :
    (execute_trap raw m cons).machine.regs.cond = m.regs.cond := by
  simp only [execute_trap]
  split <;> simp [trap_getc_cond, trap_in_cond]

theorem write_uf_dr (rf : RegisterFile) (x v : Nat) :
    ((rf.write (Register.fromU16 (x &&& 0x7)) v).update_flags v).read
        (Register.fromU16 (x &&& 0x7)) = v
    ∧ ((rf.write (Register.fromU16 (x &&& 0x7)) v).update_flags v).cond
        = flagOf v := by
  constructor
  · rw [update_flags_read _ _ _ (fromU16_and7_ne x).1, read_write,
      if_pos rfl]
  · exact update_flags_cond _ _

/-- C8: the condition flags are written exactly by the seven
result-producing instructions: ADD, AND, NOT, LD, LDI, LDR and LEA set
COND to the flag of the value written to DR, while ST, STI, STR, BR,
JMP, JSR/JSRR and every TRAP vector leave COND unchanged. -/
theorem cond_flag_discipline : ∀ raw (m : Machine) (cons : Console),
    ((raw >>> 12 = 0 ∨ raw >>> 12 = 3 ∨ raw >>> 12 = 4 ∨ raw >>> 12 = 7
        ∨ raw >>> 12 = 11 ∨ raw >>> 12 = 12 ∨ raw >>> 12 = 15) →
      (execute raw m cons).machine.regs.cond = m.regs.cond)
    ∧ ((raw >>> 12 = 1 ∨ raw >>> 12 = 2 ∨ raw >>> 12 = 5 ∨ raw >>> 12 = 6
        ∨ raw >>> 12 = 9 ∨ raw >>> 12 = 10 ∨ raw >>> 12 = 14) →
      (execute raw m cons).res = Except.ok ()
      ∧ (execute raw m cons).machine.regs.cond
          = flagOf ((execute raw m cons).machine.regs.read
              (Register.fromU16 ((raw >>> 9) &&& 0x7)))) := by
  intro raw m cons
  constructor
  · intro h
    rcases h with h | h | h | h | h | h | h
    · simp only [execute, extract_opcode, h, Opcode.from_u16]
      exact execute_br_cond raw m.regs
    · simp only [execute, extract_opcode, h, Opcode.from_u16]
    · simp only [execute, extract_opcode, h, Opcode.from_u16]
      exact execute_jsr_cond raw m.regs
    · simp only [execute, extract_opcode, h, Opcode.from_u16]
    · simp only [execute, extract_opcode, h, Opcode.from_u16]
    · simp only [execute, extract_opcode, h, Opcode.from_u16]
      exact execute_jmp_cond raw m.regs
    · simp only [execute, extract_opcode, h, Opcode.from_u16]
      exact execute_trap_cond raw m cons
  · intro h
    rcases h with h | h | h | h | h | h | h
    · refine ⟨by simp only [execute, extract_opcode, h, Opcode.from_u16], ?_⟩
      simp only [execute, extract_opcode, h, Opcode.from_u16, execute_add]
      rw [(write_uf_dr m.regs (raw >>> 9) _).1,
        (write_uf_dr m.regs (raw >>> 9) _).2]
    · refine ⟨by simp only [execute, extract_opcode, h, Opcode.from_u16], ?_⟩
      simp only [execute, extract_opcode, h, Opcode.from_u16, execute_ld]
      rw [(write_uf_dr m.regs (raw >>> 9) _).1,
        (write_uf_dr m.regs (raw >>> 9) _).2]
    · refine ⟨by simp only [execute, extract_opcode, h, Opcode.from_u16], ?_⟩
      simp only [execute, extract_opcode, h, Opcode.from_u16, execute_and]
      rw [(write_uf_dr m.regs (raw >>> 9) _).1,
        (write_uf_dr m.regs (raw >>> 9) _).2]
    · refine ⟨by simp only [execute, extract_opcode, h, Opcode.from_u16], ?_⟩
      simp only [execute, extract_opcode, h, Opcode.from_u16, execute_ldr]
      rw [(write_uf_dr m.regs (raw >>> 9) _).1,
        (write_uf_dr m.regs (raw >>> 9) _).2]
    · refine ⟨by simp only [execute, extract_opcode, h, Opcode.from_u16], ?_⟩
      simp only [execute, extract_opcode, h, Opcode.from_u16, execute_not]
      rw [(write_uf_dr m.regs (raw >>> 9) _).1,
        (write_uf_dr m.regs (raw >>> 9) _).2]
    · refine ⟨by simp only [execute, extract_opcode, h, Opcode.from_u16], ?_⟩
      simp only [execute, extract_opcode, h, Opcode.from_u16, execute_ldi]
      rw [(write_uf_dr m.regs (raw >>> 9) _).1,
        (write_uf_dr m.regs (raw >>> 9) _).2]
    · refine ⟨by simp only [execute, extract_opcode, h, Opcode.from_u16], ?_⟩
      simp only [execute, extract_opcode, h, Opcode.from_u16, execute_lea]
      rw [(write_uf_dr m.regs (raw >>> 9) _).1,
        (write_uf_dr m.regs (raw >>> 9) _).2]

/-- Witness for C8: storing with ST 0x3021 leaves COND unchanged, and
ADD 0x1401 (R2 = R0 + R1) sets COND to the flag of the written result. -/
theorem cond_flag_discipline_witness :
    (execute 0x3021 sampleMachine consEmpty).machine.regs.cond
      = sampleMachine.regs.cond
    ∧ (execute 0x1401 sampleMachine consEmpty).res = Except.ok ()
    ∧ (execute 0x1401 sampleMachine consEmpty).machine.regs.cond
        = flagOf ((execute 0x1401 sampleMachine consEmpty).machine.regs.read
            (Register.fromU16 ((0x1401 >>> 9) &&& 0x7))) :=
  ⟨(cond_flag_discipline 0x3021 sampleMachine consEmpty).1 (by decide),
    ((cond_flag_discipline 0x1401 sampleMachine consEmpty).2 (by decide)).1,
    ((cond_flag_discipline 0x1401 sampleMachine consEmpty).2 (by decide)).2⟩

/-- Counterexample for C1: executing JSRR with BaseR = R7 (raw 0x41C0)
from R7 = 0x1234 and PC = 0x3001 loads PC with 0x3001 — the incremented
PC just saved into R7 — not with the 0x1234 that R7 held before the
instruction started. -/
theorem jsrr_r7_counterexample :
    (execute 0x41C0 jsrrMachine consEmpty).machine.regs.read .PC
        ≠ jsrrMachine.regs.read .R7
    ∧ jsrrMachine.regs.read .R7 = 0x1234
    ∧ jsrrMachine.regs.read .PC = 0x3001
    ∧ (execute 0x41C0 jsrrMachine consEmpty).machine.regs.read .PC
        = 0x3001 := by
  refine ⟨by decide, by decide, by decide, by decide⟩

/-- C1 (amended): handlers read before they write except JSR/JSRR, which
saves the incremented PC into R7 before reading BaseR; hence JSRR loads
PC with the pre-instruction contents of BaseR for BaseR ≠ R7, but with the
incremented PC when BaseR = R7.  STI, by contrast, performs both of its
memory reads and its register read against the pre-instruction state
before its single memory write. -/
theorem jsr_sti_read_write_order : ∀ raw (m : Machine) (cons : Console),
    (raw >>> 12 = 4 → (raw >>> 11) &&& 0x1 ≠ 1 →
      (execute raw m cons).res = Except.ok ()
      ∧ (execute raw m cons).machine.regs.read .R7 = m.regs.read .PC
      ∧ (execute raw m cons).machine.regs.read .PC
          = (if (raw >>> 6) &&& 0x7 = 7 then m.regs.read .PC
              else m.regs.read (Register.fromU16 ((raw >>> 6) &&& 0x7)))
      ∧ (execute raw m cons).machine.mem = m.mem
      ∧ (execute raw m cons).cons = cons)
    ∧ (raw >>> 12 = 11 →
      (execute raw m cons).res = Except.ok ()
      ∧ (execute raw m cons).machine.regs = m.regs
      ∧ (execute raw m cons).machine.mem
          = m.mem.write
              (m.mem.read ((m.regs.read .PC + sign_extend (raw &&& 0x1FF) 9)
                % wordMod))
              (m.regs.read (Register.fromU16 ((raw >>> 9) &&& 0x7)))
      ∧ (execute raw m cons).cons = cons) := by
  intro raw m cons
  constructor
  · intro h hbit
    have hb : (raw >>> 6) &&& 0x7 ≤ 7 := Nat.and_le_right
    simp only [execute, extract_opcode, h, Opcode.from_u16, execute_jsr]
    rw [if_neg hbit]
    refine ⟨by trivial, ?_, ?_, by trivial, by trivial⟩
    · simp [read_write]
    · revert hb
      generalize (raw >>> 6) &&& 0x7 = k
      intro hb
      interval_cases k <;> simp [read_write, Register.fromU16]
  · intro h
    simp only [execute, extract_opcode, h, Opcode.from_u16, execute_sti]
    exact ⟨by trivial, by trivial, by trivial, by trivial⟩

/-- Witness for the amended C1 at the concrete JSRR instruction 0x41C0
(BaseR = R7) and the STI instruction 0xB001. -/
theorem jsr_sti_read_write_order_witness :
    ((execute 0x41C0 jsrrMachine consEmpty).machine.regs.read .PC
      = (if (0x41C0 >>> 6) &&& 0x7 = 7 then jsrrMachine.regs.read .PC
          else jsrrMachine.regs.read
            (Register.fromU16 ((0x41C0 >>> 6) &&& 0x7))))
    ∧ (execute 0xB001 sampleMachine consEmpty).machine.mem
        = sampleMachine.mem.write
            (sampleMachine.mem.read
              ((sampleMachine.regs.read .PC
                + sign_extend (0xB001 &&& 0x1FF) 9) % wordMod))
            (sampleMachine.regs.read
              (Register.fromU16 ((0xB001 >>> 9) &&& 0x7))) :=
  ⟨((jsr_sti_read_write_order 0x41C0 jsrrMachine consEmpty).1
      (by decide) (by decide)).2.2.1,
    ((jsr_sti_read_write_order 0xB001 sampleMachine consEmpty).2
      (by decide)).2.2.1⟩

theorem putspLoop_eq_takeWhile (mem : Nat → Nat) :
    ∀ (fuel address : Nat),
      (putspLoop mem address fuel).1
        = List.takeWhile (fun b => b != 0) (byteStreamAux mem address fuel) := by
  intro fuel
  induction fuel with
  | zero => intro address; rfl
  | succ fuel ih =>
    intro address
    simp only [putspLoop, byteStreamAux]
    by_cases h1 : mem address &&& 0xFF = 0
    · rw [if_pos h1]
      simp [List.takeWhile_cons, h1]
    · rw [if_neg h1]
      by_cases h2 : (mem address >>> 8) &&& 0xFF ≠ 0
      · rw [if_pos h2]
        simp [List.takeWhile_cons, h1, h2, ih (address + 1)]
      · rw [if_neg h2]
        push_neg at h2
        simp [List.takeWhile_cons, h1, h2]

/-- C2: for every starting address in R0 and every memory state, the
PUTSP trap (vector 0x24) emits exactly the longest zero-free prefix of
the packed byte stream (per word: low byte first, then high byte) — so
it stops at the first zero byte in either half of a word, discarding the
unexamined high byte when the low byte is zero, and emitting the low
byte before stopping when only the high byte is zero. -/
theorem putsp_emits_packed_bytes : ∀ (m : Machine) (cons : Console),
    (execute 0xF024 m cons).cons.output
      = cons.output
        ++ List.takeWhile (fun b => b != 0)
            (byteStream m.mem.data (m.regs.read .R0)) := by
  intro m cons
  have hstep : execute 0xF024 m cons = execute_trap 0xF024 m cons := rfl
  rw [hstep]
  simp only [execute_trap]
  simp only [trap_putsp, putspScan, byteStream]
  rw [putspLoop_eq_takeWhile]

theorem putsLoop_true_iff (mem : Nat → Nat) :
    ∀ (fuel address : Nat),
      (putsLoop mem address fuel).2 = true
        ↔ ∃ a, address ≤ a ∧ a < address + fuel ∧ mem a &&& 0xFF = 0 := by
  intro fuel
  induction fuel with
  | zero =>
    intro address
    constructor
    · intro h
      simp [putsLoop] at h
    · rintro ⟨a, h1, h2, -⟩
      omega
  | succ fuel ih =>
    intro address
    simp only [putsLoop]
    by_cases h1 : mem address &&& 0xFF = 0
    · rw [if_pos h1]
      simp only []
      constructor
      · intro _
        exact ⟨address, le_refl _, by omega, h1⟩
      · intro _
        trivial
    · rw [if_neg h1]
      have hproj : ((mem address &&& 0xFF)
          :: (putsLoop mem (address + 1) fuel).1,
          (putsLoop mem (address + 1) fuel).2).2
          = (putsLoop mem (address + 1) fuel).2 := rfl
      rw [hproj, ih (address + 1)]
      constructor
      · rintro ⟨a, ha1, ha2, ha3⟩
        exact ⟨a, by omega, by omega, ha3⟩
      · rintro ⟨a, ha1, ha2, ha3⟩
        have hne : a ≠ address := fun he => h1 (he ▸ ha3)
        exact ⟨a, by omega, by omega, ha3⟩

theorem putspLoop_true_iff (mem : Nat → Nat) :
    ∀ (fuel address : Nat),
      (putspLoop mem address fuel).2 = true
        ↔ ∃ a, address ≤ a ∧ a < address + fuel
            ∧ (mem a &&& 0xFF = 0 ∨ (mem a >>> 8) &&& 0xFF = 0) := by
  intro fuel
  induction fuel with
  | zero =>
    intro address
    constructor
    · intro h
      simp [putspLoop] at h
    · rintro ⟨a, h1, h2, -⟩
      omega
  | succ fuel ih =>
    intro address
    simp only [putspLoop]
    by_cases h1 : mem address &&& 0xFF = 0
    · rw [if_pos h1]
      constructor
      · intro _
        exact ⟨address, le_refl _, by omega, Or.inl h1⟩
      · intro _
        trivial
    · rw [if_neg h1]
      by_cases h2 : (mem address >>> 8) &&& 0xFF ≠ 0
      · rw [if_pos h2]
        have hproj : ((mem address &&& 0xFF)
            :: ((mem address >>> 8) &&& 0xFF)
            :: (putspLoop mem (address + 1) fuel).1,
            (putspLoop mem (address + 1) fuel).2).2
            = (putspLoop mem (address + 1) fuel).2 := rfl
        rw [hproj, ih (address + 1)]
        constructor
        · rintro ⟨a, ha1, ha2, ha3⟩
          exact ⟨a, by omega, by omega, ha3⟩
        · rintro ⟨a, ha1, ha2, ha3⟩
          have hne : a ≠ address := by
            intro he
            subst he
            rcases ha3 with h | h
            · exact h1 h
            · exact h2 h
          exact ⟨a, by omega, by omega, ha3⟩
      · rw [if_neg h2]
        push_neg at h2
        constructor
        · intro _
          exact ⟨address, le_refl _, by omega, Or.inr h2⟩
        · intro _
          rfl

/-- C10: the PUTS scan loop terminates cleanly exactly when some address
at or above the one in R0 (within the 16-bit address space) holds a word
with a zero low byte — its non-wrapping increment never continues the
scan below R0, it overflows past 0xFFFF instead — and the PUTSP scan
loop terminates cleanly exactly when some such address holds a zero byte
in either half of its word. -/
theorem scan_termination : ∀ (mem : Memory) (r0 : Nat),
    ((putsScan mem.data r0).2 = true
      ↔ ∃ a, r0 ≤ a ∧ a < 65536 ∧ mem.read a &&& 0xFF = 0)
    ∧ ((putspScan mem.data r0).2 = true
      ↔ ∃ a, r0 ≤ a ∧ a < 65536
          ∧ (mem.read a &&& 0xFF = 0 ∨ (mem.read a >>> 8) &&& 0xFF = 0)) := by
  intro mem r0
  constructor
  · rw [putsScan, putsLoop_true_iff]
    constructor
    · rintro ⟨a, h1, h2, h3⟩
      exact ⟨a, h1, by omega, h3⟩
    · rintro ⟨a, h1, h2, h3⟩
      exact ⟨a, h1, by omega, h3⟩
  · rw [putspScan, putspLoop_true_iff]
    constructor
    · rintro ⟨a, h1, h2, h3⟩
      exact ⟨a, h1, by omega, h3⟩
    · rintro ⟨a, h1, h2, h3⟩
      exact ⟨a, h1, by omega, h3⟩

/-- Witness for C10: on zeroed memory both scans terminate at once. -/
theorem scan_termination_witness :
    (putsScan Memory.new.data 0x3000).2 = true
    ∧ (putspScan Memory.new.data 0x3000).2 = true :=
  ⟨(scan_termination Memory.new 0x3000).1.mpr
      ⟨0x3000, by decide, by decide, by decide⟩,
    (scan_termination Memory.new 0x3000).2.mpr
      ⟨0x3000, by decide, by decide, Or.inl (by decide)⟩⟩

end LC3
